import Mathlib

/-!
Shallow embedding of the visit-tracking engine of the Pirate-Quest app
(src/app.js, with the storage adapter of src/storage.js modelled from the
spec where the file is absent from the snapshot).

The ledger `visited` is a JavaScript object keyed by pool id; it is embedded
as an association list with unique-key update semantics (`setEntry` replaces
an existing binding in place, otherwise appends, matching JS property
assignment).  Dates are plain strings, as in the source.
-/

namespace PirateQuest

/-- A visit record, shape `{ done: true, date: today }` (src/app.js line 287). -/
structure VisitRecord where
  done : Bool
  date : String
deriving DecidableEq

/-- A catalog entry; only the fields the engine reads are embedded. -/
structure Pool where
  id : String
  name : String
deriving DecidableEq

/-- The visit ledger: JS object keyed by pool id. -/
abbrev Ledger := List (String × VisitRecord)

/-- Property lookup `visited[id]` on the ledger object. -/
def lookupL : Ledger → String → Option VisitRecord
  | [], _ => none
  | (k, v) :: rest, key => if k = key then some v else lookupL rest key

/-- Property assignment `visited[id] = rec`: replaces an existing binding in
place, otherwise appends the new binding. -/
def setEntry : Ledger → String → VisitRecord → Ledger
  | [], key, v => [(key, v)]
  | (k, w) :: rest, key, v =>
      if k = key then (key, v) :: rest else (k, w) :: setEntry rest key v

/-- The truthiness test `visited[id]?.done` (src/app.js lines 245, 281, 330, 375). -/
def isVisited (visited : Ledger) (id : String) : Bool :=
  (lookupL visited id).any (fun r => r.done)

/-- Modelled from the spec: `countVisited` lives in src/storage.js, which is
not in the source snapshot.  Spec section 4.1: `count()` is the number of ledger
records with `done == true`. -/
def countVisited (visited : Ledger) : Nat :=
  (visited.filter (fun e => e.2.done)).length

/-- The ledger effect of `toggleStamp(poolId)` (src/app.js lines 278-289):
guard against a falsy id, return unchanged if already stamped, return
unchanged if the id is not in the catalog, otherwise store
`{ done: true, date: today }` (`today` is the externally supplied clock
string). -/
def toggleStamp (pools : List Pool) (visited : Ledger)
    (poolId : String) (today : String) : Ledger :=
  if poolId = "" then visited
  else if isVisited visited poolId then visited
  else
    match pools.find? (fun x => x.id = poolId) with
    | none => visited
    | some _ => setEntry visited poolId ⟨true, today⟩

/-- Looking up the key just written finds the new record. -/
theorem lookupL_setEntry_self (L : Ledger) (k : String) (v : VisitRecord) :
    lookupL (setEntry L k v) k = some v := by
  induction L with
  | nil => simp [setEntry, lookupL]
  | cons e rest ih =>
      obtain ⟨k0, v0⟩ := e
      by_cases h : k0 = k
      · simp [setEntry, h, lookupL]
      · simp [setEntry, h, lookupL, ih]

/-- Writing one key leaves every other key unchanged. -/
theorem lookupL_setEntry_ne (L : Ledger) (k k2 : String) (v : VisitRecord)
    (h : k2 ≠ k) : lookupL (setEntry L k v) k2 = lookupL L k2 := by
  induction L with
  | nil => simp [setEntry, lookupL, Ne.symm h]
  | cons e rest ih =>
      obtain ⟨k0, v0⟩ := e
      by_cases h0 : k0 = k
      · subst h0
        simp [setEntry, lookupL, Ne.symm h]
      · by_cases h2 : k0 = k2 <;> simp [setEntry, h0, lookupL, h2, ih, h]

/-- A claim of an already-stamped id returns before touching the ledger. -/
theorem toggleStamp_visited_noop (pools : List Pool) (visited : Ledger)
    (id today : String) (h : isVisited visited id = true) :
    toggleStamp pools visited id today = visited := by
  by_cases h0 : id = ""
  · simp [toggleStamp, h0]
  · simp [toggleStamp, h0, h]

/-- Any claim call preserves an already-true visited flag for any id. -/
theorem isVisited_toggleStamp (pools : List Pool) (visited : Ledger)
    (id idB todayB : String) (h : isVisited visited id = true) :
    isVisited (toggleStamp pools visited idB todayB) id = true := by
  by_cases h0 : idB = ""
  · simpa [toggleStamp, h0] using h
  · cases h1 : isVisited visited idB with
    | true => simpa [toggleStamp, h0, h1] using h
    | false =>
        cases hf : pools.find? (fun x => x.id = idB) with
        | none => simpa [toggleStamp, h0, h1, hf] using h
        | some p =>
            have hne : id ≠ idB := by
              rintro rfl
              rw [h] at h1
              exact Bool.true_eq_false.mp h1
            rw [toggleStamp]
            simp [h0, h1, hf]
            unfold isVisited
            rw [lookupL_setEntry_ne visited idB id _ hne]
            exact h

/-- C1: for a pool id whose ledger record already has `done == true`, every
further `toggleStamp` call on that id is a no-op (iterating the claim any
number of times leaves the ledger identical), and `isVisited id` stays true
across any claim call on any id — stamping is one-way until reset. -/
theorem claim1_claim_idempotent_one_way (pools : List Pool) (visited : Ledger)
    (id today : String) (h : isVisited visited id = true) :
    (∀ n : Nat, (fun L => toggleStamp pools L id today)^[n] visited = visited)
    ∧ (∀ idB todayB : String,
        isVisited (toggleStamp pools visited idB todayB) id = true) := by
  constructor
  · intro n
    induction n with
    | zero => rfl
    | succ n ih =>
        rw [Function.iterate_succ_apply]
        simpa [toggleStamp_visited_noop pools visited id today h] using ih
  · intro idB todayB
    exact isVisited_toggleStamp pools visited id idB todayB h

/-- Concrete catalog and ledger used to instantiate hypotheses of the
claim theorems. -/
def demoPools : List Pool := [⟨"A", "Pool A"⟩, ⟨"B", "Pool B"⟩, ⟨"C", "Pool C"⟩]

/-- A ledger in which pool "A" is already stamped. -/
def demoLedger : Ledger := [("A", ⟨true, "05/01/2025"⟩)]

/-- Witness for C1 at a concrete input. -/
theorem claim1_claim_idempotent_one_way_witness :
    isVisited demoLedger "A" = true ∧
    ((fun L => toggleStamp demoPools L "A" "06/01/2025")^[3] demoLedger = demoLedger
     ∧ isVisited (toggleStamp demoPools demoLedger "B" "07/01/2025") "A" = true) := by
  have h : isVisited demoLedger "A" = true := by decide
  exact ⟨h, (claim1_claim_idempotent_one_way demoPools demoLedger "A" "06/01/2025" h).1 3,
         (claim1_claim_idempotent_one_way demoPools demoLedger "A" "06/01/2025" h).2 "B" "07/01/2025"⟩

/-- The ISO test `/^\d{4}-\d{2}-\d{2}$/.test(d)` of src/app.js line 171:
ten characters, digits in the year/month/day slots, separators equal to
a dash. -/
def isoShape : List Char → Bool
  | [y1, y2, y3, y4, s1, m1, m2, s2, d1, d2] =>
      y1.isDigit && y2.isDigit && y3.isDigit && y4.isDigit &&
      decide (s1 = '-') && m1.isDigit && m2.isDigit &&
      decide (s2 = '-') && d1.isDigit && d2.isDigit
  | _ => false

/-- The display-form test `/^\d{2}\/\d{2}\/\d{4}$/.test(d)` of src/app.js
line 172. -/
def auShape : List Char → Bool
  | [d1, d2, s1, m1, m2, s2, y1, y2, y3, y4] =>
      d1.isDigit && d2.isDigit && decide (s1 = '/') &&
      m1.isDigit && m2.isDigit && decide (s2 = '/') &&
      y1.isDigit && y2.isDigit && y3.isDigit && y4.isDigit
  | _ => false

/-- Under the `auShape` guard, `d.split('/')` yields `[day, month, year]` and
the template produces `year ++ month ++ day` (src/app.js lines 173-174). -/
def auKey : List Char → List Char
  | [d1, d2, _, m1, m2, _, y1, y2, y3, y4] => [y1, y2, y3, y4, m1, m2, d1, d2]
  | _ => []

/-- `dateKey` (src/app.js lines 169-177): empty string maps to the empty
string; an ISO-shaped string has its dashes removed (`d.replace` with the
global dash regex); a display-shaped string is rearranged to
`year ++ month ++ day`; anything else is stripped of its non-digit
characters (`String(d).replace(/\D/g, '')`). -/
def dateKey (s : String) : String :=
  let l := s.data
  if l = [] then ""
  else if isoShape l then String.mk (l.filter (fun c => decide (c ≠ '-')))
  else if auShape l then String.mk (auKey l)
  else String.mk (l.filter Char.isDigit)

/-- The boolean lexicographic comparison underlying
`localeCompare`-ascending sorting of code-unit strings: true iff the first
list is strictly smaller. -/
def lexLt : List Char → List Char → Bool
  | [], [] => false
  | [], _ :: _ => true
  | _ :: _, [] => false
  | a :: as, b :: bs => if a < b then true else if b < a then false else lexLt as bs

/-- A digit character is not a dash. -/
theorem digit_decide_dash (c : Char) (h : c.isDigit = true) :
    decide (c = '-') = false := by
  rcases Decidable.em (c = '-') with he | he
  · subst he
    simp [Char.isDigit] at h
  · simp [he]

/-- A digit character is not a dash (negated-equality form). -/
theorem digit_decide_ne_dash (c : Char) (h : c.isDigit = true) :
    decide (c ≠ '-') = true := by
  simp [digit_decide_dash c h, decide_not]

/-- A digit character is not a slash. -/
theorem digit_decide_slash (c : Char) (h : c.isDigit = true) :
    decide (c = '/') = false := by
  rcases Decidable.em (c = '/') with he | he
  · subst he
    simp [Char.isDigit] at h
  · simp [he]

/-- `dateKey` maps an ISO-shaped string `YYYY-MM-DD` to the digit string
`YYYYMMDD`. -/
theorem dateKey_iso (y1 y2 y3 y4 m1 m2 d1 d2 : Char)
    (hy1 : y1.isDigit = true) (hy2 : y2.isDigit = true)
    (hy3 : y3.isDigit = true) (hy4 : y4.isDigit = true)
    (hm1 : m1.isDigit = true) (hm2 : m2.isDigit = true)
    (hd1 : d1.isDigit = true) (hd2 : d2.isDigit = true) :
    dateKey (String.mk [y1, y2, y3, y4, '-', m1, m2, '-', d1, d2])
      = String.mk [y1, y2, y3, y4, m1, m2, d1, d2] := by
  have hiso : isoShape [y1, y2, y3, y4, '-', m1, m2, '-', d1, d2] = true := by
    simp [isoShape, hy1, hy2, hy3, hy4, hm1, hm2, hd1, hd2]
  rw [dateKey]
  simp only [String.mk]
  rw [if_neg (by simp), if_pos hiso]
  simp [List.filter, digit_decide_ne_dash _ hy1, digit_decide_ne_dash _ hy2,
        digit_decide_ne_dash _ hy3, digit_decide_ne_dash _ hy4,
        digit_decide_ne_dash _ hm1, digit_decide_ne_dash _ hm2,
        digit_decide_ne_dash _ hd1, digit_decide_ne_dash _ hd2]

/-- `dateKey` maps a display-shaped string `DD/MM/YYYY` to the digit string
`YYYYMMDD`. -/
theorem dateKey_au (y1 y2 y3 y4 m1 m2 d1 d2 : Char)
    (hy1 : y1.isDigit = true) (hy2 : y2.isDigit = true)
    (hy3 : y3.isDigit = true) (hy4 : y4.isDigit = true)
    (hm1 : m1.isDigit = true) (hm2 : m2.isDigit = true)
    (hd1 : d1.isDigit = true) (hd2 : d2.isDigit = true) :
    dateKey (String.mk [d1, d2, '/', m1, m2, '/', y1, y2, y3, y4])
      = String.mk [y1, y2, y3, y4, m1, m2, d1, d2] := by
  have hiso : isoShape [d1, d2, '/', m1, m2, '/', y1, y2, y3, y4] = false := by
    simp [isoShape, digit_decide_dash _ hm2]
  have hau : auShape [d1, d2, '/', m1, m2, '/', y1, y2, y3, y4] = true := by
    simp [auShape, hy1, hy2, hy3, hy4, hm1, hm2, hd1, hd2]
  rw [dateKey]
  simp only [String.mk]
  rw [if_neg (by simp), if_neg (by simp [hiso]), if_pos hau]
  rfl

/-- `dateKey` on any string that matches neither date pattern strips the
non-digit characters. -/
theorem dateKey_other (s : String) (h1 : isoShape s.data = false)
    (h2 : auShape s.data = false) :
    dateKey s = String.mk (s.data.filter Char.isDigit) := by
  rw [dateKey]
  by_cases hd : s.data = []
  · simp [hd, String.mk]
  · rw [if_neg hd, if_neg (by simp [h1]), if_neg (by simp [h2])]

/-- Numeric value of a digit character. -/
def charVal (c : Char) : Nat := c.toNat - 48

/-- Numeric value of a digit string read in base 10. -/
def digitsVal : List Char → Nat
  | [] => 0
  | c :: cs => charVal c * 10 ^ cs.length + digitsVal cs

/-- Char order agrees with the order of the code points. -/
theorem char_lt_iff_toNat (a b : Char) : a < b ↔ a.toNat < b.toNat :=
  ⟨fun h => h, fun h => h⟩

/-- Code-point bounds of a digit character. -/
theorem isDigit_bounds (c : Char) (h : c.isDigit = true) :
    48 ≤ c.toNat ∧ c.toNat ≤ 57 := by
  simp [Char.isDigit] at h
  exact ⟨h.1, h.2⟩

/-- The value of a digit string is below the power of ten at its length. -/
theorem digitsVal_lt_pow (l : List Char) (h : ∀ c ∈ l, c.isDigit = true) :
    digitsVal l < 10 ^ l.length := by
  induction l with
  | nil => simp [digitsVal]
  | cons c cs ih =>
      have hc := isDigit_bounds c (h c (by simp))
      have hcs : ∀ x ∈ cs, x.isDigit = true := fun x hx => h x (by simp [hx])
      have h1 : digitsVal cs < 10 ^ cs.length := ih hcs
      have h9 : charVal c ≤ 9 := by unfold charVal; omega
      have step : digitsVal (c :: cs) < (charVal c + 1) * 10 ^ cs.length := by
        simp only [digitsVal]
        calc charVal c * 10 ^ cs.length + digitsVal cs
            < charVal c * 10 ^ cs.length + 10 ^ cs.length := by omega
          _ = (charVal c + 1) * 10 ^ cs.length := by ring
      calc digitsVal (c :: cs) < (charVal c + 1) * 10 ^ cs.length := step
        _ ≤ 10 * 10 ^ cs.length := Nat.mul_le_mul_right _ (by omega)
        _ = 10 ^ (c :: cs).length := by rw [List.length_cons]; ring

/-- On equal-length digit strings, the lexicographic comparison agrees with
the numeric comparison. -/
theorem lexLt_iff_val : ∀ (l1 l2 : List Char), l1.length = l2.length →
    (∀ c ∈ l1, c.isDigit = true) → (∀ c ∈ l2, c.isDigit = true) →
    (lexLt l1 l2 = true ↔ digitsVal l1 < digitsVal l2)
  | [], [], _, _, _ => by simp [lexLt]
  | [], _ :: _, h, _, _ => by simp at h
  | _ :: _, [], h, _, _ => by simp at h
  | a :: as, b :: bs, hlen, h1, h2 => by
      have hlen2 : as.length = bs.length := by simpa using hlen
      have ha := isDigit_bounds a (h1 a (by simp))
      have hb := isDigit_bounds b (h2 b (by simp))
      have has : ∀ c ∈ as, c.isDigit = true := fun c hc => h1 c (by simp [hc])
      have hbs : ∀ c ∈ bs, c.isDigit = true := fun c hc => h2 c (by simp [hc])
      have hvas : digitsVal as < 10 ^ bs.length := by
        rw [← hlen2]; exact digitsVal_lt_pow as has
      have hvbs : digitsVal bs < 10 ^ bs.length := digitsVal_lt_pow bs hbs
      rcases lt_trichotomy a b with hab | hab | hab
      · have hv : charVal a < charVal b := by
          have h3 : a.toNat < b.toNat := (char_lt_iff_toNat a b).mp hab
          unfold charVal
          omega
        constructor
        · intro _
          simp only [digitsVal, hlen2]
          calc charVal a * 10 ^ bs.length + digitsVal as
              < charVal a * 10 ^ bs.length + 10 ^ bs.length :=
                Nat.add_lt_add_left hvas _
            _ = (charVal a + 1) * 10 ^ bs.length := by ring
            _ ≤ charVal b * 10 ^ bs.length :=
                Nat.mul_le_mul_right _ (by omega)
            _ ≤ charVal b * 10 ^ bs.length + digitsVal bs :=
                Nat.le_add_right _ _
        · intro _
          rw [lexLt, if_pos hab]
      · subst hab
        rw [lexLt, if_neg (lt_irrefl a), if_neg (lt_irrefl a)]
        rw [lexLt_iff_val as bs hlen2 has hbs]
        simp only [digitsVal, hlen2]
        generalize charVal a * 10 ^ bs.length = k
        omega
      · have hv : charVal b < charVal a := by
          have h3 : b.toNat < a.toNat := (char_lt_iff_toNat b a).mp hab
          unfold charVal
          omega
        have hgt : digitsVal (b :: bs) < digitsVal (a :: as) := by
          simp only [digitsVal, hlen2]
          calc charVal b * 10 ^ bs.length + digitsVal bs
              < charVal b * 10 ^ bs.length + 10 ^ bs.length :=
                Nat.add_lt_add_left hvbs _
            _ = (charVal b + 1) * 10 ^ bs.length := by ring
            _ ≤ charVal a * 10 ^ bs.length :=
                Nat.mul_le_mul_right _ (by omega)
            _ ≤ charVal a * 10 ^ bs.length + digitsVal as :=
                Nat.le_add_right _ _
        rw [lexLt, if_neg (lt_asymm hab), if_pos hab]
        constructor
        · intro h3
          exact absurd h3 (by simp)
        · intro h3
          omega

/-- The boolean lexicographic comparison is the strict list order that
underlies the order on `String`. -/
theorem lexLt_iff_lt : ∀ l1 l2 : List Char, lexLt l1 l2 = true ↔ List.lt l1 l2
  | [], [] => by
      constructor
      · intro h
        exact absurd h (by simp [lexLt])
      · intro h
        cases h
  | [], b :: bs => by
      constructor
      · intro _
        exact List.lt.nil b bs
      · intro _
        rfl
  | a :: as, [] => by
      constructor
      · intro h
        exact absurd h (by simp [lexLt])
      · intro h
        cases h
  | a :: as, b :: bs => by
      by_cases hab : a < b
      · constructor
        · intro _
          exact List.lt.head as bs hab
        · intro _
          rw [lexLt, if_pos hab]
      · by_cases hba : b < a
        · constructor
          · intro h
            rw [lexLt, if_neg hab, if_pos hba] at h
            exact absurd h (by simp)
          · intro h
            cases h with
            | head _ _ h3 => exact absurd h3 hab
            | tail h1 h2 h3 => exact absurd hba h2
        · constructor
          · intro h
            rw [lexLt, if_neg hab, if_neg hba] at h
            exact List.lt.tail hab hba ((lexLt_iff_lt as bs).mp h)
          · intro h
            rw [lexLt, if_neg hab, if_neg hba]
            cases h with
            | head _ _ h3 => exact absurd h3 hab
            | tail _ _ h3 => exact (lexLt_iff_lt as bs).mpr h3

/-- The order on strings is the lexicographic order on their character
lists. -/
theorem string_lt_iff (s t : String) : s < t ↔ lexLt s.data t.data = true := by
  rw [String.lt_iff_toList_lt]
  show List.Lex (· < ·) s.toList t.toList ↔ _
  rw [← List.lt_iff_lex_lt, ← lexLt_iff_lt]
  rfl

/-- C2: `dateKey` maps an exact `YYYY-MM-DD` string to the digit string
`YYYYMMDD`, an exact `DD/MM/YYYY` string to the same digit string, and any
other string to that string with all non-digit characters removed; lexical
comparison of two 8-digit normalized keys agrees with chronological order
(year, then month, then day), regardless of which of the two formats each
record used — in particular the keys of "2025-01-05", "06/01/2025" and
"07/01/2025" are strictly increasing. -/
theorem claim2_dateKey_normalization :
    (∀ y1 y2 y3 y4 m1 m2 d1 d2 : Char,
       y1.isDigit = true → y2.isDigit = true → y3.isDigit = true →
       y4.isDigit = true → m1.isDigit = true → m2.isDigit = true →
       d1.isDigit = true → d2.isDigit = true →
       dateKey (String.mk [y1, y2, y3, y4, '-', m1, m2, '-', d1, d2])
           = String.mk [y1, y2, y3, y4, m1, m2, d1, d2]
       ∧ dateKey (String.mk [d1, d2, '/', m1, m2, '/', y1, y2, y3, y4])
           = String.mk [y1, y2, y3, y4, m1, m2, d1, d2])
    ∧ (∀ s : String, isoShape s.data = false → auShape s.data = false →
         dateKey s = String.mk (s.data.filter Char.isDigit))
    ∧ (∀ a1 a2 a3 a4 a5 a6 a7 a8 b1 b2 b3 b4 b5 b6 b7 b8 : Char,
         (∀ c ∈ [a1, a2, a3, a4, a5, a6, a7, a8], c.isDigit = true) →
         (∀ c ∈ [b1, b2, b3, b4, b5, b6, b7, b8], c.isDigit = true) →
         (String.mk [a1, a2, a3, a4, a5, a6, a7, a8]
             < String.mk [b1, b2, b3, b4, b5, b6, b7, b8]
           ↔ (digitsVal [a1, a2, a3, a4] < digitsVal [b1, b2, b3, b4]
              ∨ (digitsVal [a1, a2, a3, a4] = digitsVal [b1, b2, b3, b4]
                 ∧ (digitsVal [a5, a6] < digitsVal [b5, b6]
                    ∨ (digitsVal [a5, a6] = digitsVal [b5, b6]
                       ∧ digitsVal [a7, a8] < digitsVal [b7, b8]))))))
    ∧ dateKey "2025-01-05" < dateKey "06/01/2025"
    ∧ dateKey "06/01/2025" < dateKey "07/01/2025" := by
  refine ⟨?_, ?_, ?_, ?_, ?_⟩
  · intro y1 y2 y3 y4 m1 m2 d1 d2 hy1 hy2 hy3 hy4 hm1 hm2 hd1 hd2
    exact ⟨dateKey_iso y1 y2 y3 y4 m1 m2 d1 d2 hy1 hy2 hy3 hy4 hm1 hm2 hd1 hd2,
           dateKey_au y1 y2 y3 y4 m1 m2 d1 d2 hy1 hy2 hy3 hy4 hm1 hm2 hd1 hd2⟩
  · exact dateKey_other
  · intro a1 a2 a3 a4 a5 a6 a7 a8 b1 b2 b3 b4 b5 b6 b7 b8 hA hB
    rw [string_lt_iff]
    show lexLt [a1, a2, a3, a4, a5, a6, a7, a8]
        [b1, b2, b3, b4, b5, b6, b7, b8] = true ↔ _
    rw [lexLt_iff_val _ _ (by simp) hA hB]
    have hmA : digitsVal [a5, a6] < 100 := by
      have := digitsVal_lt_pow [a5, a6] (by
        intro c hc
        simp at hc
        rcases hc with rfl | rfl <;> exact hA c (by simp))
      simpa using this
    have hdA : digitsVal [a7, a8] < 100 := by
      have := digitsVal_lt_pow [a7, a8] (by
        intro c hc
        simp at hc
        rcases hc with rfl | rfl <;> exact hA c (by simp))
      simpa using this
    have hmB : digitsVal [b5, b6] < 100 := by
      have := digitsVal_lt_pow [b5, b6] (by
        intro c hc
        simp at hc
        rcases hc with rfl | rfl <;> exact hB c (by simp))
      simpa using this
    have hdB : digitsVal [b7, b8] < 100 := by
      have := digitsVal_lt_pow [b7, b8] (by
        intro c hc
        simp at hc
        rcases hc with rfl | rfl <;> exact hB c (by simp))
      simpa using this
    have expA : digitsVal [a1, a2, a3, a4, a5, a6, a7, a8]
        = digitsVal [a1, a2, a3, a4] * 10000
          + digitsVal [a5, a6] * 100 + digitsVal [a7, a8] := by
      simp only [digitsVal, List.length_cons, List.length_nil]
      norm_num
      ring
    have expB : digitsVal [b1, b2, b3, b4, b5, b6, b7, b8]
        = digitsVal [b1, b2, b3, b4] * 10000
          + digitsVal [b5, b6] * 100 + digitsVal [b7, b8] := by
      simp only [digitsVal, List.length_cons, List.length_nil]
      norm_num
      ring
    rw [expA, expB]
    omega
  · rw [string_lt_iff]
    decide
  · rw [string_lt_iff]
    decide

/-- Witness for C2 at a concrete input: the date of the spec example,
2025-01-05, in both formats. -/
theorem claim2_dateKey_normalization_witness :
    ('2' : Char).isDigit = true ∧
    (dateKey (String.mk ['2', '0', '2', '5', '-', '0', '1', '-', '0', '5'])
        = String.mk ['2', '0', '2', '5', '0', '1', '0', '5']
     ∧ dateKey (String.mk ['0', '5', '/', '0', '1', '/', '2', '0', '2', '5'])
        = String.mk ['2', '0', '2', '5', '0', '1', '0', '5']) :=
  ⟨by decide,
   claim2_dateKey_normalization.1 '2' '0' '2' '5' '0' '1' '0' '5'
     (by decide) (by decide) (by decide) (by decide)
     (by decide) (by decide) (by decide) (by decide)⟩

/-- Lexicographic strictness is asymmetric. -/
theorem lexLt_asymm : ∀ l1 l2 : List Char, lexLt l1 l2 = true → lexLt l2 l1 = false
  | [], [] => by simp [lexLt]
  | [], _ :: _ => by simp [lexLt]
  | _ :: _, [] => by simp [lexLt]
  | a :: as, b :: bs => by
      intro h
      by_cases hab : a < b
      · rw [lexLt, if_neg (lt_asymm hab), if_pos hab]
      · by_cases hba : b < a
        · rw [lexLt, if_neg hab, if_pos hba] at h
          exact absurd h (by simp)
        · rw [lexLt, if_neg hab, if_neg hba] at h
          rw [lexLt, if_neg hba, if_neg hab]
          exact lexLt_asymm as bs h

/-- Two lists unrelated by the lexicographic strict order are equal. -/
theorem lexLt_eq_of_false_false :
    ∀ l1 l2 : List Char, lexLt l1 l2 = false → lexLt l2 l1 = false → l1 = l2
  | [], [] => fun _ _ => rfl
  | [], _ :: _ => by
      intro h _
      exact absurd h (by simp [lexLt])
  | _ :: _, [] => by
      intro _ h
      exact absurd h (by simp [lexLt])
  | a :: as, b :: bs => by
      intro h1 h2
      by_cases hab : a < b
      · rw [lexLt, if_pos hab] at h1
        exact absurd h1 (by simp)
      · by_cases hba : b < a
        · rw [lexLt, if_pos hba] at h2
          exact absurd h2 (by simp)
        · have he : a = b := le_antisymm (not_lt.mp hba) (not_lt.mp hab)
          subst he
          rw [lexLt, if_neg hab, if_neg hab] at h1 h2
          rw [lexLt_eq_of_false_false as bs h1 h2]

/-- Lexicographic strictness is transitive. -/
theorem lexLt_trans : ∀ l1 l2 l3 : List Char,
    lexLt l1 l2 = true → lexLt l2 l3 = true → lexLt l1 l3 = true
  | [], [], _ => by simp [lexLt]
  | [], _ :: _, [] => by
      intro _ h
      exact absurd h (by simp [lexLt])
  | [], _ :: _, _ :: _ => by
      intro _ _
      rfl
  | _ :: _, [], _ => by
      intro h _
      exact absurd h (by simp [lexLt])
  | _ :: _, _ :: _, [] => by
      intro _ h
      exact absurd h (by simp [lexLt])
  | a :: as, b :: bs, c :: cs => by
      intro h1 h2
      by_cases hab : a < b
      · by_cases hbc : b < c
        · rw [lexLt, if_pos (lt_trans hab hbc)]
        · by_cases hcb : c < b
          · rw [lexLt, if_neg hbc, if_pos hcb] at h2
            exact absurd h2 (by simp)
          · have he : b = c := le_antisymm (not_lt.mp hcb) (not_lt.mp hbc)
            subst he
            rw [lexLt, if_pos hab]
      · by_cases hba : b < a
        · rw [lexLt, if_neg hab, if_pos hba] at h1
          exact absurd h1 (by simp)
        · have he : a = b := le_antisymm (not_lt.mp hba) (not_lt.mp hab)
          subst he
          rw [lexLt, if_neg hab, if_neg hab] at h1
          by_cases hac : a < c
          · rw [lexLt, if_pos hac]
          · by_cases hca : c < a
            · rw [lexLt, if_neg hac, if_pos hca] at h2
              exact absurd h2 (by simp)
            · rw [lexLt, if_neg hac, if_neg hca] at h2 ⊢
              exact lexLt_trans as bs cs h1 h2

/-- Fixed page size of the stamps view (src/app.js line 372). -/
def stampsPerPage : Nat := 2

/-- The date stored for a pool, `visited[p.id].date`; the empty string when
the record is absent (the sort only evaluates it on visited pools). -/
def recDate (visited : Ledger) (p : Pool) : String :=
  match lookupL visited p.id with
  | some r => r.date
  | none => ""

/-- The normalized sort key of a pool, `dateKey(visited[p.id].date)`
(src/app.js line 376). -/
def sortKey (visited : Ledger) (p : Pool) : String :=
  dateKey (recDate visited p)

/-- The ascending comparator of the stamps sort:
`dateKey(a).localeCompare(dateKey(b)) <= 0`, i.e. the key of `b` is not
lexicographically below the key of `a`. -/
def sortRel (visited : Ledger) (a b : Pool) : Prop :=
  lexLt (sortKey visited b).data (sortKey visited a).data = false

instance (visited : Ledger) : DecidableRel (sortRel visited) := fun a b =>
  inferInstanceAs
    (Decidable (lexLt (sortKey visited b).data (sortKey visited a).data = false))

/-- The comparator relates every pair in at least one direction. -/
theorem sortRel_total (visited : Ledger) : IsTotal Pool (sortRel visited) :=
  ⟨fun a b => by
    unfold sortRel
    cases h : lexLt (sortKey visited b).data (sortKey visited a).data
    · exact Or.inl rfl
    · exact Or.inr (lexLt_asymm _ _ h)⟩

/-- The comparator is transitive. -/
theorem sortRel_trans (visited : Ledger) : IsTrans Pool (sortRel visited) :=
  ⟨fun a b c hab hbc => by
    unfold sortRel at hab hbc ⊢
    cases hca : lexLt (sortKey visited c).data (sortKey visited a).data
    · rfl
    · exfalso
      cases hab2 : lexLt (sortKey visited a).data (sortKey visited b).data
      · have he := lexLt_eq_of_false_false _ _ hab2 hab
        rw [he] at hca
        rw [hca] at hbc
        exact Bool.noConfusion hbc
      · have h3 := lexLt_trans _ _ _ hca hab2
        rw [h3] at hbc
        exact Bool.noConfusion hbc⟩

/-- The chronologically sorted subsequence of visited catalog entries
(src/app.js lines 374-376): filter the catalog by `visited[p.id]?.done`,
then sort ascending by the normalized date key using a stable sort, as the
JS engine's `Array.prototype.sort` is. -/
def visitedPools (pools : List Pool) (visited : Ledger) : List Pool :=
  List.insertionSort (sortRel visited) (pools.filter (fun p => isVisited visited p.id))

/-- `totalPages = Math.max(1, Math.ceil(visitedPools.length / stampsPerPage))`
(src/app.js line 378); `(n + k - 1) / k` is `Math.ceil` of the real
quotient for natural `n` and positive `k`. -/
def totalPages (pools : List Pool) (visited : Ledger) : Nat :=
  max 1 (((visitedPools pools visited).length + stampsPerPage - 1) / stampsPerPage)

/-- The window `visitedPools.slice(page*pageSize, page*pageSize + pageSize)`
of src/app.js lines 388-391, with the page size generalized to a
parameter (the source instantiates it with `stampsPerPage = 2`). -/
def visibleSlice (pools : List Pool) (visited : Ledger) (page pageSize : Nat) : List Pool :=
  (((visitedPools pools visited).drop (page * pageSize)).take pageSize)

/-- Ledger after claiming "B" on 2025-01-02 from an empty ledger. -/
def scenarioL1 : Ledger := toggleStamp demoPools [] "B" "2025-01-02"

/-- Ledger after then claiming "A" on 2025-01-01. -/
def scenarioL2 : Ledger := toggleStamp demoPools scenarioL1 "A" "2025-01-01"

/-- Ledger after then claiming "C" on 2025-01-03. -/
def scenarioL3 : Ledger := toggleStamp demoPools scenarioL2 "C" "2025-01-03"

/-- C3: the visible stamps page is the window
`[page*pageSize, page*pageSize+pageSize)` of the catalog entries with a
visited record sorted ascending by normalized date key; the sorted list is
sorted under the comparator and is a permutation of the filtered catalog,
and the window never exceeds the page size.  On catalog [A,B,C], claiming B
on 2025-01-02 then A on 2025-01-01 makes page 0 of size 2 equal [A,B]
(chronological, not claim order), and after claiming C on 2025-01-03 page 1
equals [C] with two total pages. -/
theorem claim3_visible_page (pools : List Pool) (visited : Ledger) (page pageSize : Nat) :
    (visibleSlice pools visited page pageSize
       = ((visitedPools pools visited).drop (page * pageSize)).take pageSize)
    ∧ List.Sorted (sortRel visited) (visitedPools pools visited)
    ∧ (visitedPools pools visited).Perm
        (pools.filter (fun p => isVisited visited p.id))
    ∧ (visibleSlice pools visited page pageSize).length ≤ pageSize
    ∧ visibleSlice demoPools scenarioL1 0 2 = [⟨"B", "Pool B"⟩]
    ∧ visibleSlice demoPools scenarioL2 0 2 = [⟨"A", "Pool A"⟩, ⟨"B", "Pool B"⟩]
    ∧ visibleSlice demoPools scenarioL3 1 2 = [⟨"C", "Pool C"⟩]
    ∧ totalPages demoPools scenarioL3 = 2 := by
  refine ⟨rfl, ?_, ?_, ?_, ?_, ?_, ?_, ?_⟩
  · haveI := sortRel_total visited
    haveI := sortRel_trans visited
    exact List.sorted_insertionSort _ _
  · exact List.perm_insertionSort _ _
  · exact List.length_take_le _ _
  · decide
  · decide
  · decide
  · decide

/-- The render-time re-clamp of the pagination cursor,
`currentStampsPage = Math.min(currentStampsPage, totalPages - 1)`
(src/app.js line 379).  The cursor is a JS number, embedded as an
integer. -/
def renderClampPage (pools : List Pool) (visited : Ledger) (page : Int) : Int :=
  min page ((totalPages pools visited : Int) - 1)

/-- The next-page button (src/app.js lines 480-486): increment the cursor,
then `renderStamps` re-clamps it. -/
def advancePage (pools : List Pool) (visited : Ledger) (page : Int) : Int :=
  renderClampPage pools visited (page + 1)

/-- The previous-page button (src/app.js lines 472-478):
`Math.max(0, currentStampsPage - 1)`. -/
def retreatPage (page : Int) : Int :=
  max 0 (page - 1)

/-- C4 counterexample: the render-time re-clamp is `Math.min` only; with an
empty ledger (one total page) a starting page value of -1 stays -1, below
the claimed range [0, totalPages-1]. -/
theorem claim4_counterexample :
    renderClampPage demoPools [] (-1) = -1 ∧ ¬(0 ≤ renderClampPage demoPools [] (-1)) := by
  constructor
  · decide
  · decide

/-- C4 (amended): for every non-negative starting page value the
render-time re-clamp lands in [0, totalPages-1], and so does an advance
past the last page followed by the re-clamp; a negative starting value,
however, passes through the `Math.min` re-clamp unchanged. -/
theorem claim4_page_clamp_amended (pools : List Pool) (visited : Ledger)
    (page : Int) (h : 0 ≤ page) :
    0 ≤ renderClampPage pools visited page
    ∧ renderClampPage pools visited page ≤ (totalPages pools visited : Int) - 1
    ∧ 0 ≤ advancePage pools visited page
    ∧ advancePage pools visited page ≤ (totalPages pools visited : Int) - 1 := by
  have h1 : 1 ≤ totalPages pools visited := le_max_left 1 _
  have h2 : (1 : Int) ≤ (totalPages pools visited : Int) := by exact_mod_cast h1
  unfold advancePage renderClampPage
  exact ⟨le_min h (by omega), min_le_right _ _,
         le_min (by omega) (by omega), min_le_right _ _⟩

/-- Witness for C4 (amended) at a concrete input. -/
theorem claim4_page_clamp_amended_witness :
    (0 : Int) ≤ 5 ∧
    (0 ≤ renderClampPage demoPools scenarioL3 5
     ∧ renderClampPage demoPools scenarioL3 5 ≤ (totalPages demoPools scenarioL3 : Int) - 1
     ∧ 0 ≤ advancePage demoPools scenarioL3 5
     ∧ advancePage demoPools scenarioL3 5 ≤ (totalPages demoPools scenarioL3 : Int) - 1) :=
  ⟨by decide, claim4_page_clamp_amended demoPools scenarioL3 5 (by decide)⟩

/-- The up-arrow selection handler (src/app.js lines 443-451): no-op on an
empty catalog, otherwise `(selectedIndex + 1) % pools.length` with the JS
`%`, which on these operands is the truncated remainder. -/
def nextSel (len : Nat) (i : Int) : Int :=
  if len = 0 then i else (i + 1).tmod len

/-- The down-arrow selection handler (src/app.js lines 453-461):
`(selectedIndex - 1 + pools.length) % pools.length`. -/
def prevSel (len : Nat) (i : Int) : Int :=
  if len = 0 then i else (i - 1 + len).tmod len

/-- On an in-range index the up-arrow handler computes the euclidean
successor modulo the catalog length. -/
theorem nextSel_eq (len : Nat) (i : Int) (hlen : 0 < len) (h0 : 0 ≤ i) :
    nextSel len i = (i + 1) % len := by
  unfold nextSel
  rw [if_neg (by omega)]
  exact Int.tmod_eq_emod (by omega) (by exact_mod_cast Nat.zero_le len)

/-- On an in-range index the down-arrow handler computes the euclidean
predecessor modulo the catalog length. -/
theorem prevSel_eq (len : Nat) (i : Int) (hlen : 0 < len) (h0 : 0 ≤ i) :
    prevSel len i = (i - 1 + len) % len := by
  unfold prevSel
  rw [if_neg (by omega)]
  have hl : (1 : Int) ≤ (len : Int) := by exact_mod_cast hlen
  exact Int.tmod_eq_emod (by omega) (by omega)

/-- Iterating the up-arrow handler n times adds n modulo the length. -/
theorem nextSel_iterate (len : Nat) (hlen : 0 < len) :
    ∀ (n : Nat) (i : Int), 0 ≤ i → i < len →
      (fun j => nextSel len j)^[n] i = (i + n) % len := by
  have hlz : (0 : Int) < len := by exact_mod_cast hlen
  intro n
  induction n with
  | zero =>
      intro i h0 h1
      simpa using (Int.emod_eq_of_lt h0 h1).symm
  | succ n ih =>
      intro i h0 h1
      rw [Function.iterate_succ_apply]
      have hstep : nextSel len i = (i + 1) % len := nextSel_eq len i hlen h0
      have hb0 : 0 ≤ nextSel len i := by
        rw [hstep]
        exact Int.emod_nonneg _ (by omega)
      have hb1 : nextSel len i < len := by
        rw [hstep]
        exact Int.emod_lt_of_pos _ hlz
      rw [ih (nextSel len i) hb0 hb1, hstep, Int.emod_add_emod]
      push_cast
      ring_nf

/-- Iterating the down-arrow handler n times subtracts n modulo the
length. -/
theorem prevSel_iterate (len : Nat) (hlen : 0 < len) :
    ∀ (n : Nat) (i : Int), 0 ≤ i → i < len →
      (fun j => prevSel len j)^[n] i = (i - n) % len := by
  have hlz : (0 : Int) < len := by exact_mod_cast hlen
  intro n
  induction n with
  | zero =>
      intro i h0 h1
      simpa using (Int.emod_eq_of_lt h0 h1).symm
  | succ n ih =>
      intro i h0 h1
      rw [Function.iterate_succ_apply]
      have hstep : prevSel len i = (i - 1 + len) % len := prevSel_eq len i hlen h0
      have hb0 : 0 ≤ prevSel len i := by
        rw [hstep]
        exact Int.emod_nonneg _ (by omega)
      have hb1 : prevSel len i < len := by
        rw [hstep]
        exact Int.emod_lt_of_pos _ hlz
      rw [ih (prevSel len i) hb0 hb1, hstep]
      have e1 : ((i - 1 + len) % len - n) % len = (i - 1 + len - n) % len := by
        conv_rhs => rw [Int.sub_emod]
        rw [Int.sub_emod ((i - 1 + len) % len), Int.emod_emod_of_dvd _ dvd_rfl]
      rw [e1]
      have e2 : i - 1 + (len : Int) - n = (i - (n + 1)) + len := by ring
      rw [e2, Int.add_emod_self]
      push_cast
      ring_nf

/-- C5: on a non-empty catalog of length N, the up-arrow moves to
(i+1) mod N and the down-arrow to (i-1+N) mod N, so N presses of either
return to the start; on an empty catalog both handlers are no-ops and the
index stays 0. -/
theorem claim5_selection_wraparound :
    (∀ (len : Nat) (i : Int), 0 < len → 0 ≤ i → i < len →
       nextSel len i = (i + 1) % len
       ∧ prevSel len i = (i - 1 + len) % len
       ∧ (fun j => nextSel len j)^[len] i = i
       ∧ (fun j => prevSel len j)^[len] i = i)
    ∧ (∀ i : Int, nextSel 0 i = i ∧ prevSel 0 i = i)
    ∧ nextSel 0 0 = 0 ∧ prevSel 0 0 = 0 := by
  refine ⟨?_, ?_, rfl, rfl⟩
  · intro len i hlen h0 h1
    refine ⟨nextSel_eq len i hlen h0, prevSel_eq len i hlen h0, ?_, ?_⟩
    · rw [nextSel_iterate len hlen len i h0 h1, Int.add_emod_self,
          Int.emod_eq_of_lt h0 h1]
    · rw [prevSel_iterate len hlen len i h0 h1]
      have e : i - (len : Int) = i + (len : Int) * -1 := by ring
      rw [e, Int.add_mul_emod_self_left, Int.emod_eq_of_lt h0 h1]
  · intro i
    exact ⟨rfl, rfl⟩

/-- Witness for C5 at a concrete input. -/
theorem claim5_selection_wraparound_witness :
    ((0 : Nat) < 3 ∧ (0 : Int) ≤ 1 ∧ (1 : Int) < 3) ∧
    (nextSel 3 1 = (1 + 1) % 3
     ∧ prevSel 3 1 = (1 - 1 + 3) % 3
     ∧ (fun j => nextSel 3 j)^[3] 1 = 1
     ∧ (fun j => prevSel 3 j)^[3] 1 = 1) :=
  ⟨⟨by decide, by decide, by decide⟩,
   claim5_selection_wraparound.1 3 1 (by decide) (by decide) (by decide)⟩

/-- The mutable application state of src/app.js lines 20-23: the catalog,
the visit ledger, the selection index and the stamps page cursor. -/
structure AppState where
  pools : List Pool
  visited : Ledger
  selectedIndex : Int
  currentStampsPage : Int
deriving DecidableEq

/-- The full state effect of a stamp-chip click (src/app.js lines 278-319):
on the success path `toggleStamp` stores the new record and the triggered
`renderStamps` re-clamps the pagination cursor against the new ledger; the
early-return paths leave the state untouched.  The selection index is never
written. -/
def toggleStampS (s : AppState) (poolId today : String) : AppState :=
  if poolId = "" then s
  else if isVisited s.visited poolId then s
  else
    match s.pools.find? (fun x => x.id = poolId) with
    | none => s
    | some _ =>
        let v := setEntry s.visited poolId ⟨true, today⟩
        { s with visited := v,
                 currentStampsPage := renderClampPage s.pools v s.currentStampsPage }

/-- The reset handler (src/app.js lines 427-440): unconditionally clears the
ledger, persists it, and sets the stamps page cursor to 0. -/
def resetS (s : AppState) : AppState :=
  { s with visited := [], currentStampsPage := 0 }

/-- On the empty ledger no catalog entry is visited. -/
theorem visitedPools_nil (pools : List Pool) : visitedPools pools [] = [] := by
  unfold visitedPools
  have h : pools.filter (fun p => isVisited [] p.id) = [] := by
    simp [isVisited, lookupL]
  rw [h]
  rfl

/-- On the empty ledger the page count is one. -/
theorem totalPages_nil (pools : List Pool) : totalPages pools [] = 1 := by
  rw [totalPages, visitedPools_nil]
  rfl

/-- C6: reset clears every ledger record; afterwards the visited count is 0,
the page count is 1, the pagination cursor is set to 0, and the render-time
clamp of any non-negative prior page value yields 0. -/
theorem claim6_reset_totality (s : AppState) :
    (resetS s).visited = []
    ∧ countVisited (resetS s).visited = 0
    ∧ totalPages s.pools (resetS s).visited = 1
    ∧ (resetS s).currentStampsPage = 0
    ∧ (∀ p : Int, 0 ≤ p → renderClampPage s.pools (resetS s).visited p = 0) := by
  refine ⟨rfl, rfl, totalPages_nil _, rfl, ?_⟩
  intro p hp
  show renderClampPage s.pools [] p = 0
  rw [renderClampPage, totalPages_nil]
  norm_num
  omega

/-- A concrete application state for witnesses. -/
def demoState : AppState := ⟨demoPools, demoLedger, 0, 0⟩

/-- Witness for C6 at a concrete input. -/
theorem claim6_reset_totality_witness :
    (0 : Int) ≤ 5 ∧ renderClampPage demoState.pools (resetS demoState).visited 5 = 0 :=
  ⟨by decide, (claim6_reset_totality demoState).2.2.2.2 5 (by decide)⟩

/-- The completion test of src/app.js lines 308-309:
`pools.length > 0 && done === pools.length`, with `done` the visited
count. -/
def completionReached (total : Nat) (visited : Ledger) : Bool :=
  decide (0 < total) && decide (countVisited visited = total)

/-- C7: `completionReached` is true iff the number of ledger records with
`done == true` equals the (positive) number of locations; it is a pure
query of the ledger — false while the count is short, and false again only
after reset empties the ledger. -/
theorem claim7_completion_pure (total : Nat) (visited : Ledger) :
    (completionReached total visited = true
       ↔ countVisited visited = total ∧ 0 < total)
    ∧ (countVisited visited < total → completionReached total visited = false)
    ∧ (0 < total → completionReached total [] = false) := by
  refine ⟨?_, ?_, ?_⟩
  · simp [completionReached, and_comm]
  · intro h
    simp [completionReached]
    intro
    omega
  · intro h
    simp [completionReached, countVisited]
    omega

/-- Witness for C7 at a concrete input. -/
theorem claim7_completion_pure_witness :
    (completionReached 3 scenarioL3 = true
       ↔ countVisited scenarioL3 = 3 ∧ 0 < 3)
    ∧ (countVisited scenarioL2 < 3 → completionReached 3 scenarioL2 = false) :=
  ⟨(claim7_completion_pure 3 scenarioL3).1, (claim7_completion_pure 3 scenarioL2).2.1⟩

/-- The startup clamping of the persisted selection index (src/app.js lines
421-422): `if (selectedIndex < 0) selectedIndex = 0;` then
`if (selectedIndex >= pools.length)
selectedIndex = Math.max(0, pools.length - 1)`. -/
def initClampSel (raw : Int) (len : Nat) : Int :=
  let i := if raw < 0 then 0 else raw
  if (len : Int) ≤ i then max 0 ((len : Int) - 1) else i

/-- Modelled from the spec: `readSelection` lives in src/storage.js, absent
from the snapshot; spec section 6: a missing or corrupt persisted selection
index defaults to 0. -/
def readSelection (stored : Option Int) : Int := stored.getD 0

/-- C8 counterexample: a persisted selection index of 5 with a catalog of
length 3 is clamped to the last index 2, not treated as 0 as the claim
states. -/
theorem claim8_counterexample : initClampSel 5 3 = 2 ∧ initClampSel 5 3 ≠ 0 := by
  constructor
  · decide
  · decide

/-- C8 (amended): at startup a missing persisted selection index or a
negative one is treated as 0, but an index at or beyond the catalog length
is clamped to `max 0 (length-1)` — the last index — rather than 0; the
resulting index always lies in [0, length-1] for a non-empty catalog and is
0 for an empty catalog. -/
theorem claim8_init_clamp_amended (raw : Int) (len : Nat) :
    (raw < 0 → initClampSel raw len = 0)
    ∧ (0 ≤ raw → raw < len → initClampSel raw len = raw)
    ∧ (0 ≤ raw → (len : Int) ≤ raw → 0 < len → initClampSel raw len = (len : Int) - 1)
    ∧ (0 < len → 0 ≤ initClampSel raw len ∧ initClampSel raw len < len)
    ∧ (len = 0 → initClampSel raw len = 0)
    ∧ initClampSel (readSelection none) len = 0 := by
  have hmax0 : max (0 : Int) (-1) = 0 := rfl
  have hmaxpos : 0 < len → max (0 : Int) ((len : Int) - 1) = (len : Int) - 1 := by
    intro h
    have : (1 : Int) ≤ (len : Int) := by exact_mod_cast h
    exact max_eq_right (by omega)
  refine ⟨?_, ?_, ?_, ?_, ?_, ?_⟩
  · intro h
    rw [initClampSel]
    simp only [if_pos h]
    rcases Nat.eq_zero_or_pos len with hl | hl
    · subst hl
      simp
    · have : ¬((len : Int) ≤ 0) := by
        have : (1 : Int) ≤ (len : Int) := by exact_mod_cast hl
        omega
      simp [this]
  · intro h0 h1
    rw [initClampSel]
    simp only [if_neg (by omega : ¬raw < 0)]
    simp [if_neg (by omega : ¬((len : Int) ≤ raw))]
  · intro h0 h1 h2
    rw [initClampSel]
    simp only [if_neg (by omega : ¬raw < 0)]
    simp [if_pos h1, hmaxpos h2]
  · intro h
    have h1 : (1 : Int) ≤ (len : Int) := by exact_mod_cast h
    rw [initClampSel]
    by_cases hr : raw < 0
    · simp only [if_pos hr]
      rw [if_neg (by omega)]
      omega
    · simp only [if_neg hr]
      by_cases h2 : (len : Int) ≤ raw
      · rw [if_pos h2, hmaxpos h]
        omega
      · rw [if_neg h2]
        omega
  · intro h
    subst h
    rw [initClampSel]
    by_cases hr : raw < 0
    · simp [hr]
    · simp only [if_neg hr]
      rw [if_pos (by omega)]
      simp
  · show initClampSel 0 len = 0
    rw [initClampSel]
    simp only [if_neg (by omega : ¬(0 : Int) < 0)]
    rcases Nat.eq_zero_or_pos len with hl | hl
    · subst hl
      simp
    · rw [if_neg (by
        have : (1 : Int) ≤ (len : Int) := by exact_mod_cast hl
        omega)]

/-- Witness for C8 (amended) at a concrete input. -/
theorem claim8_init_clamp_amended_witness :
    ((-2 : Int) < 0 ∧ initClampSel (-2) 3 = 0)
    ∧ ((0 : Nat) < 3 ∧ 0 ≤ initClampSel 7 3 ∧ initClampSel 7 3 < 3) :=
  ⟨⟨by decide, (claim8_init_clamp_amended (-2) 3).1 (by decide)⟩,
   ⟨by decide, (claim8_init_clamp_amended 7 3).2.2.2.1 (by decide)⟩⟩

/-- C9: claiming a location id that is not in the catalog is a no-op, not an
exception: the ledger is unchanged (ledger form), and the whole application
state — so nothing is persisted — is unchanged (state form). -/
theorem claim9_unknown_id_noop (poolId today : String) :
    (∀ (pools : List Pool) (visited : Ledger),
       (∀ p ∈ pools, p.id ≠ poolId) → toggleStamp pools visited poolId today = visited)
    ∧ (∀ s : AppState,
       (∀ p ∈ s.pools, p.id ≠ poolId) → toggleStampS s poolId today = s) := by
  have hfind : ∀ (pools : List Pool), (∀ p ∈ pools, p.id ≠ poolId) →
      pools.find? (fun x => x.id = poolId) = none := by
    intro pools h
    rw [List.find?_eq_none]
    intro x hx
    simpa using h x hx
  constructor
  · intro pools visited h
    by_cases h0 : poolId = ""
    · simp [toggleStamp, h0]
    · cases h1 : isVisited visited poolId
      · simp [toggleStamp, h0, h1, hfind pools h]
      · simp [toggleStamp, h0, h1]
  · intro s h
    by_cases h0 : poolId = ""
    · simp [toggleStampS, h0]
    · cases h1 : isVisited s.visited poolId
      · simp [toggleStampS, h0, h1, hfind s.pools h]
      · simp [toggleStampS, h0, h1]

/-- Witness for C9 at a concrete input. -/
theorem claim9_unknown_id_noop_witness :
    (∀ p ∈ demoPools, p.id ≠ "Z")
    ∧ toggleStamp demoPools demoLedger "Z" "06/01/2025" = demoLedger :=
  ⟨by decide, (claim9_unknown_id_noop "Z" "06/01/2025").1 demoPools demoLedger (by decide)⟩

/-- C10: a successful claim of pool id x writes only the ledger entry for x —
its record becomes `{done: true, date: today}`, every other id keeps its
record — and the selection cursor and catalog are untouched. -/
theorem claim10_claim_frame (s : AppState) (poolId today : String) (p : Pool)
    (h0 : poolId ≠ "") (h1 : isVisited s.visited poolId = false)
    (hf : s.pools.find? (fun x => x.id = poolId) = some p) :
    lookupL (toggleStampS s poolId today).visited poolId = some ⟨true, today⟩
    ∧ (∀ y : String, y ≠ poolId →
        lookupL (toggleStampS s poolId today).visited y = lookupL s.visited y)
    ∧ (toggleStampS s poolId today).selectedIndex = s.selectedIndex
    ∧ (toggleStampS s poolId today).pools = s.pools := by
  have hS : toggleStampS s poolId today =
      { s with visited := setEntry s.visited poolId ⟨true, today⟩,
               currentStampsPage :=
                 renderClampPage s.pools (setEntry s.visited poolId ⟨true, today⟩)
                   s.currentStampsPage } := by
    simp [toggleStampS, h0, h1, hf]
  rw [hS]
  refine ⟨lookupL_setEntry_self _ _ _, ?_, rfl, rfl⟩
  intro y hy
  exact lookupL_setEntry_ne _ _ _ _ hy

/-- Witness for C10 at a concrete input. -/
theorem claim10_claim_frame_witness :
    ("B" : String) ≠ "" ∧ isVisited demoState.visited "B" = false
    ∧ demoState.pools.find? (fun x => x.id = "B") = some ⟨"B", "Pool B"⟩
    ∧ (lookupL (toggleStampS demoState "B" "06/01/2025").visited "B"
         = some ⟨true, "06/01/2025"⟩
       ∧ lookupL (toggleStampS demoState "B" "06/01/2025").visited "A"
         = lookupL demoState.visited "A"
       ∧ (toggleStampS demoState "B" "06/01/2025").selectedIndex
         = demoState.selectedIndex) := by
  have h := claim10_claim_frame demoState "B" "06/01/2025" ⟨"B", "Pool B"⟩
    (by decide) (by decide) (by decide)
  exact ⟨by decide, by decide, by decide,
         h.1, h.2.1 "A" (by decide), h.2.2.1⟩

end PirateQuest
